import Mathlib

/-!
Verification of the configuration-resolution logic of the `bili` bundler
front end (`src/index.js`).

The JavaScript source is shallowly embedded: pure string manipulation is
modelled on `List Char` (so that every definition is executable and
kernel-reducible), fallible code returns `Except`, and the handful of
external Node collaborators that the claims depend on (`path.basename`,
`path.extname`, `path.resolve`, `String.prototype.split`) are modelled by
explicit executable definitions documented next to their uses.
-/

/-! ## Character-list string primitives

JavaScript string operations used by `src/index.js` (`startsWith`,
`endsWith`, `includes`, `split`) are modelled on `List Char` so that every
definition reduces in the kernel.
-/

/-- `leadsWith p s` is true when the character list `p` is an initial
segment of `s` (the char-level counterpart of JS `String.startsWith`). -/
def leadsWith : List Char → List Char → Bool
  | [], _ => true
  | _ :: _, [] => false
  | p :: ps, c :: cs => p == c && leadsWith ps cs

/-- `occursIn pat s` is true when `pat` occurs contiguously inside `s`
(the char-level counterpart of JS `String.includes`). -/
def occursIn (pat : List Char) : List Char → Bool
  | [] => pat.isEmpty
  | c :: cs => leadsWith pat (c :: cs) || occursIn pat cs

/-- JS `s.startsWith(pat)`. -/
def strStartsWith (s pat : String) : Bool := leadsWith pat.data s.data

/-- JS `s.endsWith(pat)`. -/
def strEndsWith (s pat : String) : Bool := leadsWith pat.data.reverse s.data.reverse

/-- JS `s.includes(pat)` (for the non-empty patterns used in the source). -/
def strIncludes (s pat : String) : Bool := occursIn pat.data s.data

/-- Split a character list on a separator character; `cur` is the
reversed chunk accumulated so far.  `chSplit sep s []` agrees with JS
`s.split(sep)` (always at least one, possibly empty, chunk). -/
def chSplit (sep : Char) : List Char → List Char → List (List Char)
  | [], cur => [cur.reverse]
  | c :: cs, cur =>
    if c == sep then cur.reverse :: chSplit sep cs [] else chSplit sep cs (c :: cur)

/-- JS `s.split(',')`, as used by `getArrayOption` (src/index.js:82). -/
def jsSplitComma (s : String) : List String :=
  (chSplit ',' s.data []).map (fun cs => String.mk cs)

/-! ### Basic lemmas about the primitives -/

theorem leadsWith_append (p t : List Char) : leadsWith p (p ++ t) = true := by
  induction p with
  | nil => rfl
  | cons c cs ih => simp [leadsWith, ih]

theorem leadsWith_true_iff (p s : List Char) :
    leadsWith p s = true ↔ ∃ t, s = p ++ t := by
  induction p generalizing s with
  | nil =>
    simp [leadsWith]
  | cons c cs ih =>
    cases s with
    | nil =>
      simp [leadsWith]
    | cons d ds =>
      simp only [leadsWith, Bool.and_eq_true, beq_iff_eq, ih]
      constructor
      · rintro ⟨rfl, t, rfl⟩
        exact ⟨t, rfl⟩
      · rintro ⟨t, ht⟩
        rw [List.cons_append] at ht
        cases ht
        exact ⟨rfl, t, rfl⟩

theorem occursIn_singleton (a : Char) (s : List Char) :
    occursIn [a] s = true ↔ a ∈ s := by
  induction s with
  | nil => simp [occursIn, List.isEmpty]
  | cons c cs ih =>
    simp only [occursIn, leadsWith, Bool.or_eq_true, Bool.and_eq_true, beq_iff_eq, ih,
      List.mem_cons]
    tauto

/-- Two strings with the same character data are equal. -/
theorem strData_ext (s t : String) (h : s.data = t.data) : s = t := by
  cases s; cases t; exact congrArg String.mk h

/-! ## Model of the Node `path` collaborator

`src/index.js` uses `path.basename`, `path.extname`, `path.resolve` and
`path.relative` from Node.  The first three are modelled here for the
path shapes the source uses (forward slashes, no trailing slash):
`path.relative` never influences a claim and stays an opaque parameter
where it occurs.
-/

/-- The final `/`-separated segment of a path (what Node `path.basename`
and `path.extname` operate on).  For a path with no `/` this is the whole
path. -/
def lastSegmentCh (p : List Char) : List Char :=
  (p.reverse.takeWhile (fun c => !(c == '/'))).reverse

/-- Node `path.extname`: the extension of the last segment, i.e. the part
from the last `.` on, empty when there is no `.` or when the only `.` is
the segment's first character (dotfiles have no extension). -/
def jsExtnameCh (p : List Char) : List Char :=
  let b := lastSegmentCh p
  let pre := b.reverse.takeWhile (fun c => !(c == '.'))
  if pre.length + 1 < b.length then '.' :: pre.reverse else []

/-- Node `path.basename(p, ext)`: the last segment of `p`, with the
suffix `ext` removed when the segment ends in `ext` without being exactly
`ext`. -/
def jsBasenameCh (p ext : List Char) : List Char :=
  let b := lastSegmentCh p
  if b ≠ ext ∧ leadsWith ext.reverse b.reverse = true then
    b.take (b.length - ext.length)
  else b

/-- String wrapper for `jsExtnameCh`. -/
def jsExtname (p : String) : String := String.mk (jsExtnameCh p.data)

/-- String wrapper for `jsBasenameCh`. -/
def jsBasename (p ext : String) : String := String.mk (jsBasenameCh p.data ext.data)

/-- Normalize `/`-split path segments against a (reversed) stack:
empty and `.` segments vanish, `..` pops (and is dropped at the root,
as in an absolute Node path), anything else is pushed. -/
def normSegsAux : List (List Char) → List (List Char) → List (List Char)
  | stack, [] => stack.reverse
  | stack, seg :: rest =>
    if seg = [] ∨ seg = ['.'] then normSegsAux stack rest
    else if seg = ['.', '.'] then normSegsAux stack.tail rest
    else normSegsAux (seg :: stack) rest

/-- Node `path.resolve(p)` with the process working directory `cwd`:
an absolute `p` is normalized on its own, otherwise `cwd ++ "/" ++ p` is
normalized.  `cwd` stands for `process.cwd()`, which is always absolute
in Node, so the result always carries a leading `/`. -/
def pathResolveCh (cwd p : List Char) : List Char :=
  let full := if leadsWith ['/'] p = true then p else cwd ++ '/' :: p
  '/' :: List.intercalate ['/'] (normSegsAux [] (chSplit '/' full []))

/-- String wrapper for `pathResolveCh`; models the one-argument
`path.resolve(e)` on src/index.js:157. -/
def pathResolve1 (cwd p : String) : String := String.mk (pathResolveCh cwd.data p.data)

/-! ### Splice lemmas: basename/extname recombine -/

theorem lastSegmentCh_of_no_slash (w : List Char) (h : occursIn ['/'] w = false) :
    lastSegmentCh w = w := by
  have hmem : '/' ∉ w := by
    intro hm
    rw [(occursIn_singleton '/' w).mpr hm] at h
    exact absurd h (by decide)
  have : w.reverse.takeWhile (fun c => !(c == '/')) = w.reverse := by
    apply List.takeWhile_eq_self_iff.mpr
    intro c hc
    simp only [Bool.not_eq_true', beq_eq_false_iff_ne, ne_eq]
    intro hcq
    exact hmem (by simpa [hcq] using (List.mem_reverse.mp hc))
  simp [lastSegmentCh, this]

/-- On a slash-free name, Node `basename`/`extname` split the name into a
stem and its extension: recombining them gives back the name. -/
theorem basename_extname_splice (w : List Char) (h : occursIn ['/'] w = false) :
    jsBasenameCh w (jsExtnameCh w) ++ jsExtnameCh w = w := by
  have hseg : lastSegmentCh w = w := lastSegmentCh_of_no_slash w h
  by_cases hlt :
      (w.reverse.takeWhile (fun c => !(c == '.'))).length + 1 < w.length
  · -- there is a `.` at a positive index: the extension is nonempty
    set pre := w.reverse.takeWhile (fun c => !(c == '.')) with hpre
    have hsplit :
        pre ++ w.reverse.dropWhile (fun c => !(c == '.')) = w.reverse :=
      List.takeWhile_append_dropWhile _ _
    have hlen : pre.length + (w.reverse.dropWhile (fun c => !(c == '.'))).length
        = w.length := by
      have := congrArg List.length hsplit
      simpa using this
    have hdropne : 0 < (w.reverse.dropWhile (fun c => !(c == '.'))).length := by
      omega
    obtain ⟨d, rest, hdr⟩ :
        ∃ d rest, w.reverse.dropWhile (fun c => !(c == '.')) = d :: rest := by
      cases hd : w.reverse.dropWhile (fun c => !(c == '.')) with
      | nil => rw [hd] at hdropne; exact absurd hdropne (by simp)
      | cons d rest => exact ⟨d, rest, rfl⟩
    have hdot : d = '.' := by
      have := List.dropWhile_get_zero_not (p := fun c => !(c == '.')) w.reverse
        (by omega)
      rw [List.get_eq_getElem] at this
      simp only [hdr, List.getElem_cons_zero, Bool.not_eq_true', beq_eq_false_iff_ne,
        ne_eq, not_not] at this
      exact this
    subst hdot
    have hw : w = rest.reverse ++ ('.' :: pre.reverse) := by
      have : w.reverse = pre ++ '.' :: rest := by rw [← hsplit, hdr]
      have hw' := congrArg List.reverse this
      simpa [List.reverse_append] using hw'
    have hext : jsExtnameCh w = '.' :: pre.reverse := by
      rw [jsExtnameCh, hseg]
      simp only [← hpre, if_pos hlt]
    have hextlen : ('.' :: pre.reverse).length < w.length := by
      simp only [List.length_cons, List.length_reverse]
      omega
    rw [hext, jsBasenameCh, hseg]
    rw [if_pos ?hcond]
    case hcond =>
      constructor
      · intro hq
        have := congrArg List.length hq
        simp only at this
        omega
      · have : w.reverse = ('.' :: pre.reverse).reverse ++ rest := by
          rw [hw]
          simp [List.reverse_append]
        rw [this]
        exact leadsWith_append _ _
    have hlen2 : w.length - ('.' :: pre.reverse).length = rest.reverse.length := by
      rw [hw]
      simp only [List.length_append]
      omega
    rw [hlen2, hw, List.take_left]
  · -- no extension: `extname` is empty and `basename` returns the name
    have hext : jsExtnameCh w = [] := by
      rw [jsExtnameCh, hseg]
      simp only [if_neg hlt]
    rw [hext, jsBasenameCh, hseg, List.append_nil]
    by_cases hw : w = []
    · simp [hw]
    · rw [if_pos ⟨hw, by simp [leadsWith]⟩]
      simp

/-! ## Embedded source definitions (src/index.js) -/

/-- The error class of `src/bili-error.js` (not under src/, but fully
determined by its uses: an `Error` subclass carrying only a message). -/
structure BiliError where
  message : String
deriving DecidableEq

/-- `getSuffix` (src/index.js:377-392): map a format to its filename
suffix, throwing `Error('unsupported format')` on anything else. -/
def getSuffix (format : String) : Except String String :=
  match format with
  | "cjs" => .ok ".cjs"
  | "umd" => .ok ""
  | "es" => .ok ".m"
  | _ => .error "unsupported format"

/-- `getNameFromInput` (src/index.js:394-396):
`path.basename(input, path.extname(input))`. -/
def getNameFromInput (input : String) : String :=
  jsBasename input (jsExtname input)

/-- Fuel-driven replace-all on character lists: replace every (leftmost,
non-overlapping) occurrence of `pat` by `rep`.  The fuel only serves to
make the recursion structural; `fuel ≥ s.length` is always enough since
every step consumes at least one character of `s`. -/
def replaceAllChF : Nat → List Char → List Char → List Char → List Char
  | 0, _, _, s => s
  | Nat.succ _, _, _, [] => []
  | Nat.succ fuel, pat, rep, c :: cs =>
    if pat ≠ [] ∧ leadsWith pat (c :: cs) = true then
      rep ++ replaceAllChF fuel pat rep (List.drop pat.length (c :: cs))
    else
      c :: replaceAllChF fuel pat rep cs

/-- Replace every occurrence of `pat` in `s` by `rep`. -/
def replaceAllStr (s pat rep : String) : String :=
  String.mk (replaceAllChF s.data.length pat.data rep.data s.data)

/-- Modelled from the spec: the Filename Templater of `src/template.js`
(the file itself is not under src/).  Spec §4.1: replace every occurrence
of each recognized token `[key]` by its substitution value; unknown
tokens are left verbatim.  `getFilename` invokes it with the
substitutions `{name, suffix}`. -/
def templateStr (pattern : String) (subs : List (String × String)) : String :=
  subs.foldl (fun acc kv => replaceAllStr acc ("[" ++ kv.1 ++ "]") kv.2) pattern

/-- `getFilename` (src/index.js:398-405): template the filename pattern
with the input-derived (or overridden) name and the format suffix; when
compressing, splice `.min` in front of the extension via
`path.basename(res, path.extname(res)) + '.min' + path.extname(res)`.
The `name` option is a JS `string | absentined` used as `name || ...`, so
an empty string also falls back to the input-derived name. -/
def getFilename (input format filename : String) (compress : Bool)
    (nameOption : Option String) : Except String String :=
  let name :=
    match nameOption with
    | some s => if s = "" then getNameFromInput input else s
    | none => getNameFromInput input
  match getSuffix format with
  | .error e => .error e
  | .ok suffix =>
    let res := templateStr filename [("name", name), ("suffix", suffix)]
    .ok (if compress then
      jsBasename res (jsExtname res) ++ ".min" ++ jsExtname res
    else res)

/-- One ResolvedTask: the `{ input, format, compress }` object built per
(input file × requested format) in `Bili.bundle` (src/index.js:280-293). -/
structure TaskOpt where
  input : String
  format : String
  compress : Bool
deriving DecidableEq

/-- `format.endsWith('-min')` (src/index.js:284). -/
def hasMinTail (format : String) : Bool := strEndsWith format "-min"

/-- JS `format.replace` with the anchored regex `-min$` and replacement
`''` (src/index.js:287): strip one trailing `-min` if present. -/
def stripMinTail (format : String) : String :=
  if hasMinTail format then String.mk (format.data.take (format.data.length - 4))
  else format

/-- The per-(input, format) task object (src/index.js:283-290). -/
def taskOf (input format : String) : TaskOpt :=
  { input := input
    format := stripMinTail format
    compress := hasMinTail format }

/-- The task list built by `Bili.bundle` (src/index.js:280-293):
`inputFiles.reduce((res, input) => [...res, ...formats.map(...)], [])`. -/
def mkTasks (inputFiles formats : List String) : List TaskOpt :=
  inputFiles.foldl (fun res input => res ++ formats.map (fun f => taskOf input f)) []

/-- The default format list `FORMATS = ['cjs']` (src/index.js:26). -/
def FORMATS : List String := ["cjs"]

/-! ## Orchestrator pieces of `Bili.bundle` -/

/-- The `chalk` colorizer (external collaborator): with color support
disabled — the case on a non-TTY stream — every `chalk.<style>` call
returns its argument unchanged, which is how it is modelled here. -/
def chalkGreen (s : String) : String := s

/-- See `chalkGreen`. -/
def chalkDim (s : String) : String := s

/-- The collision diagnostic of `Bili.bundle` (src/index.js:349-360).
`docRef` stands for the string produced by `getDocRef('api', 'filename')`
from `src/handle-error.js` (not under src/): it is a documentation
pointer that the check merely appends. -/
def collisionMessage (filename : String) (inputCount : Nat) (docRef : String) : String :=
  let hasName := strIncludes filename "[name]"
  let hasSuffix := strIncludes filename "[suffix]"
  "Multiple files are emitting to the same path.\nPlease check if " ++
    (if hasName || inputCount == 1 then ""
     else chalkGreen "[name]" ++ (if hasSuffix then "" else " or ")) ++
    (if hasSuffix then "" else chalkGreen "[suffix]") ++
    " is missing in " ++ chalkGreen "filename" ++ " option.\n" ++ docRef

/-- The keys of `this.bundles` after all non-watch tasks settled: each
task's collector plugin executed `this.bundles[file] = {...}`
(src/index.js:226-234), and a JS object keeps one entry per distinct key
(a second write to the same path overwrites, adding no key).  Hence the
key list is the deduplicated list of the tasks' output paths. -/
def finalBundleKeys (outputPaths : List String) : List String := outputPaths.dedup

/-- The post-build invariant check run inside `nextTick` after
`Promise.all(actions)` (src/index.js:344-363): raise a `BiliError` when
the bundle map holds fewer entries than `formats.length * inputFiles.length`,
succeed otherwise.  In the source this runs after all tasks settle and
before `bundle()` returns `this`, so an `.error` here is exactly "the
caller never receives a success result". -/
def bundleCollisionCheck (bundleKeyCount : Nat) (formats inputFiles : List String)
    (filename docRef : String) : Except BiliError Unit :=
  if bundleKeyCount < formats.length * inputFiles.length then
    .error ⟨collisionMessage filename inputFiles.length docRef⟩
  else .ok ()

/-- The JS value found in `options.input`: absent, a single pattern
string, or an array of pattern strings. -/
inductive InputOption where
  | absent
  | str (s : String)
  | strs (xs : List String)
deriving DecidableEq

/-- JS truthiness of an `options.input` value (`undefined` and `''` are
falsy; any array — even `[]` — is truthy). -/
def inputTruthy : InputOption → Bool
  | .absent => false
  | .str s => !(s == "")
  | .strs _ => true

/-- Input-pattern defaulting in `Bili.bundle` (src/index.js:266-269):
`options.input || 'src/index.js'`, then an explicit empty array is also
replaced by `'src/index.js'`. -/
def resolveInputPatterns (i : InputOption) : InputOption :=
  let p := if inputTruthy i then i else .str "src/index.js"
  match p with
  | .strs [] => .str "src/index.js"
  | other => other

/-- Input resolution in `Bili.bundle` (src/index.js:266-276): glob the
defaulted patterns (`glob` stands for the external `globby` collaborator,
`relTo` for `this.relativeToProcessCwd`), then fail with
`BiliError('No matched files to bundle.')` when nothing matched. -/
def bundleResolveInputs (glob : InputOption → List String)
    (relTo : String → String) (i : InputOption) : Except BiliError (List String) :=
  let files := (glob (resolveInputPatterns i)).map relTo
  if files.length = 0 then .error ⟨"No matched files to bundle."⟩ else .ok files

/-- The non-watch bundling plan of `Bili.bundle` up to task creation
(src/index.js:266-293): resolve inputs, then build one task per
(input × format).  Each returned `TaskOpt` is what gets handed to the
engine, so an `.error` result means no engine invocation occurs. -/
def bundlePlan (glob : InputOption → List String) (relTo : String → String)
    (i : InputOption) (formats : List String) : Except BiliError (List TaskOpt) :=
  match bundleResolveInputs glob relTo i with
  | .error e => .error e
  | .ok files => .ok (mkTasks files formats)

/-! ## Option handling (`getArrayOption`, sourcemap, externals) -/

/-- A JS option value, as far as the option-marshaling code inspects it:
`undefined` (modelled as `absent`), a boolean, a number, a string, or an array of strings. -/
inductive JsVal where
  | absent
  | jsBool (b : Bool)
  | num (n : Int)
  | str (s : String)
  | arr (xs : List String)
deriving DecidableEq

/-- JS truthiness of a `JsVal` (`undefined`, `false`, `0` and `''` are
falsy; every array is truthy). -/
def jsTruthy : JsVal → Bool
  | .absent => false
  | .jsBool b => b
  | .num n => !(n == 0)
  | .str s => !(s == "")
  | .arr _ => true

/-- `Bili.getArrayOption` (src/index.js:80-84): take the singular option
if truthy, else the plural one; split a string value on commas; return
anything else as-is. -/
def getArrayOption (singular plural : JsVal) : JsVal :=
  let option := if jsTruthy singular then singular else plural
  match option with
  | .str s => .arr (jsSplitComma s)
  | other => other

/-- The `sourcemap` output option (src/index.js:253-254):
`typeof options.map === 'boolean' ? options.map : compress`. -/
def resolveSourcemap (map : JsVal) (compress : Bool) : Bool :=
  match map with
  | .jsBool b => b
  | _ => compress

/-- The arrow function of src/index.js:157:
`e => (e.startsWith('./') ? path.resolve(e) : e)`. -/
def resolveExternalEntry (cwd e : String) : String :=
  if strStartsWith e "./" then pathResolve1 cwd e else e

/-- The external-dependency list of `Bili.createConfig`
(src/index.js:156-161): map the user-declared externals through
`resolveExternalEntry`, then — when the `globals`/`global` option is an
object (modelled as `some` association list) — append that object's keys. -/
def resolveExternal (cwd : String) (externalEntries : List String)
    (globals : Option (List (String × String))) : List String :=
  let ext := externalEntries.map (fun e => resolveExternalEntry cwd e)
  match globals with
  | some g => ext ++ g.map Prod.fst
  | none => ext

/-! ## Plugin loading failure handling -/

/-- The shape of a JS exception as inspected by `handleLoadPluginError`:
its `code` property (absent on plain errors) and its `message`. -/
structure JsError where
  code : Option String
  message : String
deriving DecidableEq

/-- Outcome of `handleLoadPluginError`: either a synthesized `BiliError`
is thrown, or the original error is re-thrown unchanged. -/
inductive PluginLoadOutcome where
  | raisedBili (e : BiliError)
  | rethrown (e : JsError)
deriving DecidableEq

/-- The module name synthesized for a user plugin (src/index.js:119). -/
def pluginModuleName (name : String) : String := "rollup-plugin-" ++ name

/-- The `BiliError` message of `handleLoadPluginError` (src/index.js:450). -/
def pluginMissingMessage (moduleName : String) : String :=
  "Cannot find plugin \"" ++ moduleName ++ "\" in current directory!\n" ++
    chalkDim ("You may run \"npm install -D " ++ moduleName ++ "\" to install it.")

/-- `handleLoadPluginError` (src/index.js:448-454): wrap the failure in a
`BiliError` with an install hint exactly when it is a genuine
`MODULE_NOT_FOUND` whose message mentions the synthesized module name;
re-throw anything else unchanged. -/
def handleLoadPluginError (moduleName : String) (err : JsError) : PluginLoadOutcome :=
  if err.code = some "MODULE_NOT_FOUND" ∧ strIncludes err.message moduleName = true then
    .raisedBili ⟨pluginMissingMessage moduleName⟩
  else .rethrown err

/-! ## Helper lemmas for the claims -/

theorem mkTasks_go_length (formats : List String) :
    ∀ (inputs : List String) (acc : List TaskOpt),
      (inputs.foldl (fun res input => res ++ formats.map (fun f => taskOf input f))
          acc).length
        = acc.length + inputs.length * formats.length := by
  intro inputs
  induction inputs with
  | nil => intro acc; simp
  | cons i is ih =>
    intro acc
    simp only [List.foldl_cons, ih, List.length_append, List.length_map,
      List.length_cons]
    ring

theorem mkTasks_length (inputs formats : List String) :
    (mkTasks inputs formats).length = inputs.length * formats.length := by
  unfold mkTasks
  rw [mkTasks_go_length]
  simp

theorem mkTasks_mem (formats : List String) :
    ∀ (inputs : List String) (acc : List TaskOpt) (x : TaskOpt),
      x ∈ inputs.foldl (fun res input => res ++ formats.map (fun f => taskOf input f))
          acc ↔
        x ∈ acc ∨ ∃ i ∈ inputs, ∃ fm ∈ formats, x = taskOf i fm := by
  intro inputs
  induction inputs with
  | nil => intro acc x; simp
  | cons i is ih =>
    intro acc x
    rw [List.foldl_cons, ih]
    simp only [List.mem_append, List.mem_map, List.mem_cons]
    constructor
    · rintro (⟨h | ⟨fm, hfm, rfl⟩⟩ | ⟨i', hi', fm, hfm, rfl⟩)
      · exact .inl h
      · exact .inr ⟨i, .inl rfl, fm, hfm, rfl⟩
      · exact .inr ⟨i', .inr hi', fm, hfm, rfl⟩
    · rintro (h | ⟨i', hi' | hi', fm, hfm, rfl⟩)
      · exact .inl (.inl h)
      · subst hi'
        exact .inl (.inr ⟨fm, hfm, rfl⟩)
      · exact .inr ⟨i', hi', fm, hfm, rfl⟩

/-! ## Claim theorems -/

/-- C3: `getSuffix` is total on `{cjs, es, umd}` with
`getSuffix('cjs') = '.cjs'`, `getSuffix('es') = '.m'`,
`getSuffix('umd') = ''`, and every other input throws the
`unsupported format` error — no silent default. -/
theorem claim_C3_getSuffix_total :
    getSuffix "cjs" = .ok ".cjs" ∧ getSuffix "es" = .ok ".m" ∧
    getSuffix "umd" = .ok "" ∧
    ∀ f : String, f ≠ "cjs" → f ≠ "es" → f ≠ "umd" →
      getSuffix f = .error "unsupported format" := by
  refine ⟨rfl, rfl, rfl, ?_⟩
  intro f h1 h2 h3
  unfold getSuffix
  split <;> simp_all

/-- Witness for C3 at the concrete unsupported format `foo`. -/
theorem claim_C3_getSuffix_total_witness :
    getSuffix "foo" = .error "unsupported format" :=
  claim_C3_getSuffix_total.2.2.2 "foo" (by decide) (by decide) (by decide)

/-- C5: a requested format ending in the `-min` marker yields a task with
`compress = true` whose canonical format is the marker-stripped name
(stripped ++ "-min" recovers the request); a format without the marker
yields a task with `compress = false` and the format unchanged. -/
theorem claim_C5_min_marker :
    ∀ input format : String,
      (hasMinTail format = true →
        (taskOf input format).compress = true ∧
        (taskOf input format).format ++ "-min" = format ∧
        (taskOf input format).input = input) ∧
      (hasMinTail format = false →
        taskOf input format = ⟨input, format, false⟩) := by
  intro input format
  constructor
  · intro h
    refine ⟨by simp [taskOf, h], ?_, rfl⟩
    have h' := h
    unfold hasMinTail strEndsWith at h'
    rw [leadsWith_true_iff] at h'
    obtain ⟨t, ht⟩ := h'
    have hdata : format.data = t.reverse ++ "-min".data := by
      have hrev := congrArg List.reverse ht
      simpa [List.reverse_append] using hrev
    show stripMinTail format ++ "-min" = format
    unfold stripMinTail
    rw [if_pos h]
    apply strData_ext
    rw [String.data_append]
    show (format.data.take (format.data.length - 4)) ++ "-min".data = format.data
    rw [hdata, List.length_append]
    have h4 : ("-min".data).length = 4 := by decide
    rw [h4]
    have : t.reverse.length + 4 - 4 = t.reverse.length := by omega
    rw [this, List.take_left]
  · intro h
    simp [taskOf, stripMinTail, h]

/-- Witness for C5 at the concrete format `cjs-min`. -/
theorem claim_C5_min_marker_witness :
    (taskOf "src/index.js" "cjs-min").compress = true ∧
    (taskOf "src/index.js" "cjs-min").format ++ "-min" = "cjs-min" ∧
    (taskOf "src/index.js" "cjs-min").input = "src/index.js" :=
  (claim_C5_min_marker "src/index.js" "cjs-min").1 (by decide)

/-- C2: for every non-empty input-file list and non-empty format list,
`bundle()` builds `|inputFiles| * |formats|` tasks, and the task of every
(input, format) pair is among them. -/
theorem claim_C2_task_cross_product :
    ∀ (inputFiles formats : List String),
      inputFiles ≠ [] → formats ≠ [] →
      (mkTasks inputFiles formats).length = inputFiles.length * formats.length ∧
      ∀ i ∈ inputFiles, ∀ fm ∈ formats, taskOf i fm ∈ mkTasks inputFiles formats := by
  intro inputs formats _ _
  refine ⟨mkTasks_length inputs formats, ?_⟩
  intro i hi fm hfm
  unfold mkTasks
  rw [mkTasks_mem]
  exact .inr ⟨i, hi, fm, hfm, rfl⟩

/-- Witness for C2 with one input and two formats. -/
theorem claim_C2_task_cross_product_witness :
    (mkTasks ["src/index.js"] ["cjs", "es-min"]).length = 1 * 2 ∧
    taskOf "src/index.js" "es-min" ∈ mkTasks ["src/index.js"] ["cjs", "es-min"] := by
  have h := claim_C2_task_cross_product ["src/index.js"] ["cjs", "es-min"]
    (by decide) (by decide)
  exact ⟨h.1, h.2 "src/index.js" (by decide) "es-min" (by decide)⟩

/-- C4: with filename pattern `[name][suffix].js`, input `src/index.js`
and format `cjs`, the computed filename is `index.cjs.js` uncompressed
and `index.cjs.min.js` compressed; in general, compressing splices `.min`
immediately before the (slash-free) filename's extension: the compressed
name is `stem ++ ".min" ++ ext` where `stem ++ ext` is the uncompressed
name. -/
theorem claim_C4_filename_computation :
    getFilename "src/index.js" "cjs" "[name][suffix].js" false none = .ok "index.cjs.js" ∧
    getFilename "src/index.js" "cjs" "[name][suffix].js" true none = .ok "index.cjs.min.js" ∧
    ∀ (input format filename : String) (nameOption : Option String) (res : String),
      getFilename input format filename false nameOption = .ok res →
      strIncludes res "/" = false →
      getFilename input format filename true nameOption =
        .ok (jsBasename res (jsExtname res) ++ ".min" ++ jsExtname res) ∧
      jsBasename res (jsExtname res) ++ jsExtname res = res := by
  refine ⟨rfl, rfl, ?_⟩
  intro input format filename nameOption res h hns
  have hns' : occursIn ['/'] res.data = false := by
    have hd : ("/" : String).data = ['/'] := by decide
    rw [strIncludes, hd] at hns
    exact hns
  have hsplice : jsBasename res (jsExtname res) ++ jsExtname res = res := by
    apply strData_ext
    rw [String.data_append]
    show jsBasenameCh res.data (jsExtnameCh res.data) ++ jsExtnameCh res.data = res.data
    exact basename_extname_splice res.data hns'
  refine ⟨?_, hsplice⟩
  unfold getFilename at h ⊢
  cases hsuf : getSuffix format with
  | error e =>
    rw [hsuf] at h
    exact absurd h (by simp)
  | ok suffix =>
    rw [hsuf] at h
    simp only [Except.ok.injEq, Bool.false_eq_true, Bool.true_eq_false, if_false, if_true,
      reduceIte] at h ⊢
    rw [h]

/-- Witness for C4's general part at the concrete `index.cjs.js` result,
with its hypotheses discharged by C4's own concrete clause and `decide`. -/
theorem claim_C4_filename_computation_witness :
    getFilename "src/index.js" "cjs" "[name][suffix].js" true none =
      .ok (jsBasename "index.cjs.js" (jsExtname "index.cjs.js") ++ ".min" ++
        jsExtname "index.cjs.js") ∧
    jsBasename "index.cjs.js" (jsExtname "index.cjs.js") ++ jsExtname "index.cjs.js" =
      "index.cjs.js" :=
  claim_C4_filename_computation.2.2 "src/index.js" "cjs" "[name][suffix].js" none
    "index.cjs.js" claim_C4_filename_computation.1 (by decide)

theorem strAppend_assoc (a b c : String) : (a ++ b) ++ c = a ++ (b ++ c) := by
  apply strData_ext
  simp only [String.data_append, List.append_assoc]

/-- C1: after a successful non-watch `bundle()` over non-empty inputs and
formats, the bundle map holds exactly `formats × inputFiles` entries
(`outPath` stands for the output-path computation of `createConfig`, one
path per task, so the key list is the dedup of the task paths); whenever
the count falls short of the product, the post-build check raises the
collision `BiliError` instead of returning success. -/
theorem claim_C1_artifact_invariant :
    ∀ (inputFiles formats : List String) (outPath : TaskOpt → String)
      (filename docRef : String),
      inputFiles ≠ [] → formats ≠ [] →
      ((bundleCollisionCheck
          (finalBundleKeys ((mkTasks inputFiles formats).map outPath)).length
          formats inputFiles filename docRef = .ok ()) →
        (finalBundleKeys ((mkTasks inputFiles formats).map outPath)).length =
          formats.length * inputFiles.length) ∧
      ((finalBundleKeys ((mkTasks inputFiles formats).map outPath)).length <
          formats.length * inputFiles.length →
        bundleCollisionCheck
          (finalBundleKeys ((mkTasks inputFiles formats).map outPath)).length
          formats inputFiles filename docRef =
          .error ⟨collisionMessage filename inputFiles.length docRef⟩) := by
  intro inputs formats outPath filename docRef _ _
  constructor
  · intro hok
    have hub : (finalBundleKeys ((mkTasks inputs formats).map outPath)).length ≤
        formats.length * inputs.length := by
      have h1 : (finalBundleKeys ((mkTasks inputs formats).map outPath)).length ≤
          ((mkTasks inputs formats).map outPath).length :=
        (List.dedup_sublist _).length_le
      rw [List.length_map, mkTasks_length, Nat.mul_comm] at h1
      exact h1
    by_cases hlt : (finalBundleKeys ((mkTasks inputs formats).map outPath)).length <
        formats.length * inputs.length
    · rw [bundleCollisionCheck, if_pos hlt] at hok
      exact absurd hok (by simp)
    · exact Nat.le_antisymm hub (Nat.not_lt.mp hlt)
  · intro hlt
    rw [bundleCollisionCheck, if_pos hlt]

/-- Witness for C1: two inputs whose tasks collide on the same output
path leave one bundle key, and the check raises the collision error. -/
theorem claim_C1_artifact_invariant_witness :
    bundleCollisionCheck
      (finalBundleKeys ((mkTasks ["a.js", "b.js"] ["cjs"]).map (fun _ => "/dist/x.js"))).length
      ["cjs"] ["a.js", "b.js"] "x.js" "" =
      .error ⟨collisionMessage "x.js" 2 ""⟩ :=
  (claim_C1_artifact_invariant ["a.js", "b.js"] ["cjs"] (fun _ => "/dist/x.js")
    "x.js" "" (by decide) (by decide)).2 (by decide)

/-- C6: when globbing the (defaulted) input patterns matches nothing,
`bundle()` fails with `BiliError('No matched files to bundle.')` and no
engine invocation occurs (the plan carries no task); an absent input
option or an explicit empty list defaults to the pattern `src/index.js`
before globbing. -/
theorem claim_C6_empty_inputs :
    (∀ (glob : InputOption → List String) (relTo : String → String)
        (i : InputOption) (formats : List String),
      glob (resolveInputPatterns i) = [] →
      bundlePlan glob relTo i formats = .error ⟨"No matched files to bundle."⟩) ∧
    resolveInputPatterns .absent = .str "src/index.js" ∧
    resolveInputPatterns (.strs []) = .str "src/index.js" := by
  refine ⟨?_, rfl, rfl⟩
  intro glob relTo i formats hg
  simp [bundlePlan, bundleResolveInputs, hg]

/-- Witness for C6: a glob that matches nothing yields the error plan. -/
theorem claim_C6_empty_inputs_witness :
    bundlePlan (fun _ => []) (fun s => s) .absent ["cjs"] =
      .error ⟨"No matched files to bundle."⟩ :=
  claim_C6_empty_inputs.1 (fun _ => []) (fun s => s) .absent ["cjs"] rfl

/-- C7: plugin loading failure is wrapped into a `BiliError` that carries
the synthesized module name `rollup-plugin-<name>` and the
`npm install -D` hint exactly when the failure is a `MODULE_NOT_FOUND`
whose message mentions that module name; every other failure is re-thrown
unchanged. -/
theorem claim_C7_plugin_resolution :
    ∀ (name : String) (err : JsError),
      ((err.code = some "MODULE_NOT_FOUND" ∧
          strIncludes err.message (pluginModuleName name) = true) →
        handleLoadPluginError (pluginModuleName name) err =
          .raisedBili ⟨pluginMissingMessage (pluginModuleName name)⟩ ∧
        (∃ pre post, pluginMissingMessage (pluginModuleName name) =
          pre ++ (pluginModuleName name ++ post)) ∧
        (∃ pre post, pluginMissingMessage (pluginModuleName name) =
          pre ++ (("npm install -D " ++ pluginModuleName name) ++ post))) ∧
      (¬ (err.code = some "MODULE_NOT_FOUND" ∧
          strIncludes err.message (pluginModuleName name) = true) →
        handleLoadPluginError (pluginModuleName name) err = .rethrown err) := by
  intro name err
  constructor
  · intro hcond
    refine ⟨by rw [handleLoadPluginError, if_pos hcond], ?_, ?_⟩
    · exact ⟨"Cannot find plugin \"",
        "\" in current directory!\n" ++
          chalkDim ("You may run \"npm install -D " ++ pluginModuleName name ++
            "\" to install it."),
        by simp only [pluginMissingMessage, strAppend_assoc]⟩
    · refine ⟨"Cannot find plugin \"" ++ pluginModuleName name ++
        "\" in current directory!\nYou may run \"", "\" to install it.", ?_⟩
      apply strData_ext
      simp only [pluginMissingMessage, chalkDim, String.data_append, List.append_assoc]
      have key : ∀ X : List Char,
          ("\" in current directory!\n" : String).data ++
            (("You may run \"npm install -D " : String).data ++ X) =
          ("\" in current directory!\nYou may run \"" : String).data ++
            (("npm install -D " : String).data ++ X) := by
        intro X
        rw [← List.append_assoc, ← List.append_assoc]
        have hBC : ("\" in current directory!\n" : String).data ++
            ("You may run \"npm install -D " : String).data =
            ("\" in current directory!\nYou may run \"" : String).data ++
            ("npm install -D " : String).data := by decide
        rw [hBC]
      rw [key]
  · intro hcond
    rw [handleLoadPluginError, if_neg hcond]

/-- Witness for C7 at the concrete plugin name `vue` and a genuine
module-not-found error mentioning `rollup-plugin-vue`. -/
theorem claim_C7_plugin_resolution_witness :
    handleLoadPluginError (pluginModuleName "vue")
      ⟨some "MODULE_NOT_FOUND", "Cannot find module rollup-plugin-vue"⟩ =
      .raisedBili ⟨pluginMissingMessage (pluginModuleName "vue")⟩ :=
  ((claim_C7_plugin_resolution "vue"
      ⟨some "MODULE_NOT_FOUND", "Cannot find module rollup-plugin-vue"⟩).1
    ⟨rfl, by decide⟩).1

/-- C8: a task's source-map flag equals the user `map` option when that
option is a boolean, and equals the task's compress flag otherwise
(source maps default to on exactly when compressing). -/
theorem claim_C8_sourcemap_default :
    ∀ compress : Bool,
      (∀ b : Bool, resolveSourcemap (.jsBool b) compress = b) ∧
      (∀ map : JsVal, (∀ b : Bool, map ≠ .jsBool b) →
        resolveSourcemap map compress = compress) := by
  intro compress
  constructor
  · intro b
    rfl
  · intro map h
    cases map with
    | jsBool b => exact absurd rfl (h b)
    | absent => rfl
    | num n => rfl
    | str s => rfl
    | arr xs => rfl

/-- Witness for C8: explicit `map: false` wins over compression; an
absent `map` defaults to the compress flag. -/
theorem claim_C8_sourcemap_default_witness :
    resolveSourcemap (.jsBool false) true = false ∧
    resolveSourcemap .absent true = true :=
  ⟨(claim_C8_sourcemap_default true).1 false,
    (claim_C8_sourcemap_default true).2 .absent (by intro b h; cases h)⟩

/-- C9: the external list is the user-declared externals — entries
starting with `./` resolved to an absolute path, all other entries passed
through unchanged — followed by the globals keys exactly when a globals
object is supplied. -/
theorem claim_C9_external_list :
    ∀ (cwd : String) (entries : List String) (g : List (String × String)),
      resolveExternal cwd entries (some g) =
        entries.map (fun e => resolveExternalEntry cwd e) ++ g.map Prod.fst ∧
      resolveExternal cwd entries none =
        entries.map (fun e => resolveExternalEntry cwd e) ∧
      (∀ e : String, strStartsWith e "./" = false → resolveExternalEntry cwd e = e) ∧
      (∀ e : String, strStartsWith e "./" = true →
        resolveExternalEntry cwd e = pathResolve1 cwd e ∧
        strStartsWith (pathResolve1 cwd e) "/" = true) := by
  intro cwd entries g
  refine ⟨rfl, rfl, ?_, ?_⟩
  · intro e he
    rw [resolveExternalEntry, if_neg]
    simp [he]
  · intro e he
    refine ⟨by rw [resolveExternalEntry, if_pos he], ?_⟩
    have hd : ("/" : String).data = ['/'] := by decide
    rw [strStartsWith, hd]
    show leadsWith ['/'] (pathResolveCh cwd.data e.data) = true
    rw [pathResolveCh]
    simp [leadsWith]

/-- Witness for C9: a `./` entry resolves to an absolute path, a bare
name passes through, and globals keys are appended. -/
theorem claim_C9_external_list_witness :
    resolveExternal "/proj" ["./lib/a.js", "lodash"] (some [("vue", "Vue")]) =
      ["./lib/a.js", "lodash"].map (fun e => resolveExternalEntry "/proj" e) ++
        [("vue", "Vue")].map Prod.fst ∧
    resolveExternalEntry "/proj" "lodash" = "lodash" ∧
    strStartsWith (pathResolve1 "/proj" "./lib/a.js") "/" = true := by
  have h := claim_C9_external_list "/proj" ["./lib/a.js", "lodash"] [("vue", "Vue")]
  exact ⟨h.1, h.2.2.1 "lodash" (by decide), (h.2.2.2 "./lib/a.js" (by decide)).2⟩

/-- C10: `getArrayOption` prefers the singular option key whenever it is
truthy and falls back to the plural key otherwise; a string value (from
either key) is split on commas into a list, any non-string value is
returned as-is. -/
theorem claim_C10_array_option :
    ∀ (singular plural : JsVal),
      (jsTruthy singular = true → ∀ s, singular = .str s →
        getArrayOption singular plural = .arr (jsSplitComma s)) ∧
      (jsTruthy singular = true → (∀ s, singular ≠ .str s) →
        getArrayOption singular plural = singular) ∧
      (jsTruthy singular = false → ∀ s, plural = .str s →
        getArrayOption singular plural = .arr (jsSplitComma s)) ∧
      (jsTruthy singular = false → (∀ s, plural ≠ .str s) →
        getArrayOption singular plural = plural) ∧
      jsSplitComma "a,b" = ["a", "b"] := by
  intro sing plur
  refine ⟨?_, ?_, ?_, ?_, by decide⟩
  · rintro ht s rfl
    simp [getArrayOption, ht]
  · intro ht hns
    cases sing with
    | str s => exact absurd rfl (hns s)
    | absent => exact absurd ht (by decide)
    | jsBool b => simp [getArrayOption, ht]
    | num n => simp [getArrayOption, ht]
    | arr xs => simp [getArrayOption, ht]
  · rintro hf s rfl
    simp [getArrayOption, hf]
  · intro hf hns
    cases plur with
    | str s => exact absurd rfl (hns s)
    | absent => simp [getArrayOption, hf]
    | jsBool b => simp [getArrayOption, hf]
    | num n => simp [getArrayOption, hf]
    | arr xs => simp [getArrayOption, hf]

/-- Witness for C10: a truthy singular string is comma-split; a falsy
singular falls back to the plural array unchanged. -/
theorem claim_C10_array_option_witness :
    getArrayOption (.str "a,b") (.arr ["x"]) = .arr (jsSplitComma "a,b") ∧
    getArrayOption .absent (.arr ["x"]) = .arr ["x"] :=
  ⟨(claim_C10_array_option (.str "a,b") (.arr ["x"])).1 (by decide) "a,b" rfl,
    (claim_C10_array_option .absent (.arr ["x"])).2.2.2.1 (by decide)
      (fun s h => JsVal.noConfusion h)⟩
